import Mathlib

/-!
Shallow embedding of the LogRocket log-viewer core (src/log_parser.rs,
src/search.rs, src/app.rs) and verification of the frozen claims.

Rust strings are modelled as lists of characters (`Str`); byte-level
operations (Rust `str::find`, byte-offset spans) go through an explicit
UTF-8 encoder.  The character classes of the `regex` crate (`\d`, `\s`,
`\w`) are modelled by their ASCII subsets, and Unicode case mapping is
modelled exactly on ASCII plus the extra characters appearing in this
development; all universal theorems that depend on case mapping carry an
ASCII hypothesis so that they range only over inputs where the model is
exact.
-/

/-- Character-list model of a Rust `String` / `&str`. -/
abbrev Str := List Char

/-- Convert a Lean string literal into the model type. -/
def strL (s : String) : Str := s.toList

/-- ASCII decimal digit, modelling the regex class `\d` (restricted to its
ASCII subset; the claims never exercise non-ASCII digits). -/
def isDigitC (c : Char) : Bool := '0' ≤ c && c ≤ '9'

/-- Whitespace, modelling both the regex class `\s` and Rust
`char::is_whitespace` (ASCII subset: space, tab, newline, carriage return,
vertical tab, form feed). -/
def isWsC (c : Char) : Bool :=
  c = ' ' || c = '\t' || c = '\n' || c = '\r' || c.toNat = 11 || c.toNat = 12

/-- Word character, modelling the regex class `\w` (ASCII subset). -/
def isWordC (c : Char) : Bool :=
  isDigitC c || ('a' ≤ c && c ≤ 'z') || ('A' ≤ c && c ≤ 'Z') || c = '_'

/-- A line is blank in the sense of `line.trim().is_empty()`. -/
def isBlankLine (l : Str) : Bool := l.all isWsC

/-- Rust `str::trim_end` (trailing-whitespace removal). -/
def rustTrimEnd (s : Str) : Str := (s.reverse.dropWhile isWsC).reverse

/-- UTF-8 encoding of one character (standard RFC 3629 encoder). -/
def utf8EncodeChar (c : Char) : List Nat :=
  let n := c.toNat
  if n < 0x80 then [n]
  else if n < 0x800 then [0xC0 + n / 64, 0x80 + n % 64]
  else if n < 0x10000 then
    [0xE0 + n / 4096, 0x80 + (n / 64) % 64, 0x80 + n % 64]
  else
    [0xF0 + n / 262144, 0x80 + (n / 4096) % 64, 0x80 + (n / 64) % 64,
      0x80 + n % 64]

/-- UTF-8 byte sequence of a model string; Rust byte offsets and
`str::len()` are taken with respect to this sequence. -/
def utf8Bytes (s : Str) : List Nat := (s.map utf8EncodeChar).flatten

/-- Unicode lowercase mapping of one code point, modelling Rust
`char::to_lowercase` restricted to the characters used in this
development: exact on ASCII and on U+023A (LATIN CAPITAL LETTER A WITH
STROKE, which lowercases to U+2C65 and changes UTF-8 byte length from 2
to 3); identity elsewhere. -/
def lowerCodepoint (n : Nat) : Nat :=
  if 65 ≤ n && n ≤ 90 then n + 32
  else if n = 0x23A then 0x2C65
  else n

/-- Rust `char::to_lowercase` for one character (see `lowerCodepoint`;
on the modelled characters the mapping is always a single character). -/
def toLowercaseChar (c : Char) : List Char := [Char.ofNat (lowerCodepoint c.toNat)]

/-- Rust `str::to_lowercase` (see `toLowercaseChar` for the modelled
character range). -/
def rustToLowercase (s : Str) : Str := (s.map toLowercaseChar).flatten

/-- Uppercase mapping of one code point (ASCII-exact model of Rust
`char::to_uppercase`; the parser only uppercases `\w+` level tokens). -/
def upperCodepoint (n : Nat) : Nat :=
  if 97 ≤ n && n ≤ 122 then n - 32 else n

/-- Rust `str::to_uppercase` (ASCII-exact; see `upperCodepoint`). -/
def rustToUppercase (s : Str) : Str := s.map (fun c => Char.ofNat (upperCodepoint c.toNat))

/-- ASCII case folding on a byte, used only to state theorems about
case-insensitive matching (not part of the embedded program). -/
def lowerByte (b : Nat) : Nat := if 65 ≤ b && b ≤ 90 then b + 32 else b

/-- Join a list of lines with single newline separators (the shape of the
`full_text` accumulator in `LogParser::parse_file`). -/
def joinNL : List Str → Str
  | [] => []
  | [s] => s
  | s :: t :: r => s ++ '\n' :: joinNL (t :: r)

/-- Worker for `splitOnNL`; `fuel` only bounds the recursion depth (each
step consumes at least the newline character, so any fuel at least the
string length gives the fuel-independent answer). -/
def splitOnNLAux : Nat → Str → List Str
  | 0, s => [s]
  | n + 1, s =>
    match s.dropWhile (fun c => c ≠ '\n') with
    | [] => [s.takeWhile (fun c => c ≠ '\n')]
    | _ :: t => s.takeWhile (fun c => c ≠ '\n') :: splitOnNLAux n t

/-- Split a string at every newline; always returns one more piece than
there are newlines (helper for `rustLines`). -/
def splitOnNL (s : Str) : List Str := splitOnNLAux s.length s

/-- Rust `str::lines`: split at newlines, drop a final empty piece, and
strip one trailing carriage return from each line. -/
def rustLines (s : Str) : List Str :=
  let ps := splitOnNL s
  let ps := if ps.getLast? = some [] then ps.dropLast else ps
  ps.map (fun l => if l.getLast? = some '\r' then l.dropLast else l)

/-! ## Data model (src/log_parser.rs lines 3-23) -/

/-- The `LogLevel` enumeration. -/
inductive LogLevel where
  | Info
  | Warn
  | Error
  | Debug
  | Trace
  | Unknown
deriving DecidableEq, Repr

/-- The `LogEntry` record. -/
structure LogEntry where
  line_number : Nat
  timestamp : Option Str
  level : LogLevel
  thread : Option Str
  class' : Option Str
  message : Str
  raw_line : Str
  is_error_log : Bool
deriving DecidableEq, Repr

/-! ## Regex matchers

The two patterns built in `LogParser::new` are hand-translated into
deterministic matchers.  Each greedy `X+` in the patterns is followed by a
requirement disjoint from `X`, so maximal-munch is exactly the
leftmost-first (backtracking) semantics of the `regex` crate's capture
extraction, except for the final `\s+(.+)$`, where `.` also matches
whitespace and genuine backtracking is modelled (`finalTry`). -/

/-- Consume exactly `n` characters satisfying `p`; return them and the
remainder. -/
def expectN (p : Char → Bool) : Nat → Str → Option (Str × Str)
  | 0, s => some ([], s)
  | _ + 1, [] => none
  | n + 1, c :: s =>
    if p c then (expectN p n s).map (fun r => (c :: r.1, r.2)) else none

/-- Consume one literal character. -/
def expectC (c : Char) : Str → Option Str
  | [] => none
  | b :: s => if b = c then some s else none

/-- Consume a maximal nonempty run of characters satisfying `p`
(the deterministic reading of a greedy `X+` whose successor token is
disjoint from `X`). -/
def plusRun (p : Char → Bool) (s : Str) : Option (Str × Str) :=
  let run := s.takeWhile p
  if run.isEmpty then none else some (run, s.dropWhile p)

/-- Backtracking for the trailing `\s+(.+)$`: try consuming `n` whitespace
characters, then `n - 1`, ..., down to `1`; succeed when the remainder is
nonempty and free of newlines (`.` does not match a newline and `$` is
end-of-haystack). -/
def finalTry (t : Str) : Nat → Option Str
  | 0 => none
  | n + 1 =>
    let r := t.drop (n + 1)
    if !r.isEmpty && r.all (fun c => c ≠ '\n') then some r else finalTry t n

/-- Match the trailing `\s+(.+)$` of both grammars against `t`, returning
the capture of `(.+)`. -/
def finalWsRest (t : Str) : Option Str :=
  finalTry t (t.takeWhile isWsC).length

/-- Stage 1 of the error-log pattern: `\d{2}\.\d{2}\.\d{4}` (date part of
capture 1); returns the consumed text and the remainder. -/
def errDate (s : Str) : Option (Str × Str) := do
  let (d1, s) ← expectN isDigitC 2 s
  let s ← expectC '.' s
  let (d2, s) ← expectN isDigitC 2 s
  let s ← expectC '.' s
  let (d3, s) ← expectN isDigitC 4 s
  return (d1 ++ '.' :: d2 ++ '.' :: d3, s)

/-- Stage 2 of the error-log pattern: `\d{2}:\d{2}:\d{2}\.\d{3}` (time
part of capture 1). -/
def errTime (s : Str) : Option (Str × Str) := do
  let (h, s) ← expectN isDigitC 2 s
  let s ← expectC ':' s
  let (mi, s) ← expectN isDigitC 2 s
  let s ← expectC ':' s
  let (sec, s) ← expectN isDigitC 2 s
  let s ← expectC '.' s
  let (ms, s) ← expectN isDigitC 3 s
  return (h ++ ':' :: mi ++ ':' :: sec ++ '.' :: ms, s)

/-- Stage 3 of the error-log pattern: `\s+\*(\w+)\*\s+\[([^\]]+)\]`;
returns (level token, thread, remainder). -/
def errLevelThread (s : Str) : Option (Str × Str × Str) := do
  let (_, s) ← plusRun isWsC s
  let s ← expectC '*' s
  let (lvl, s) ← plusRun isWordC s
  let s ← expectC '*' s
  let (_, s) ← plusRun isWsC s
  let s ← expectC '[' s
  let (thr, s) ← plusRun (fun c => c ≠ ']') s
  let s ← expectC ']' s
  return (lvl, thr, s)

/-- Matcher for the structured error-log pattern of `LogParser::new`
(line 33 of src/log_parser.rs).  On success returns the four captures
(timestamp, level token, thread, rest). -/
def errorLogMatch (s : Str) : Option (Str × Str × Str × Str) := do
  let (date, s) ← errDate s
  let (w1, s) ← plusRun isWsC s
  let (time, s) ← errTime s
  let (lvl, thr, s) ← errLevelThread s
  let rest ← finalWsRest s
  return (date ++ w1 ++ time, lvl, thr, rest)

/-- Stage 1 of the access-log pattern: `([^\s]+)\s+-\s+(\S+)\s+`; returns
(ip, user, remainder). -/
def accIpUser (s : Str) : Option (Str × Str × Str) := do
  let (ip, s) ← plusRun (fun c => !isWsC c) s
  let (_, s) ← plusRun isWsC s
  let s ← expectC '-' s
  let (_, s) ← plusRun isWsC s
  let (user, s) ← plusRun (fun c => !isWsC c) s
  let (_, s) ← plusRun isWsC s
  return (ip, user, s)

/-- Stage 2 of the access-log pattern: `\d{2}/\w{3}/\d{4}:\d{2}` (date
part of capture 3). -/
def accDate (s : Str) : Option (Str × Str) := do
  let (a1, s) ← expectN isDigitC 2 s
  let s ← expectC '/' s
  let (mon, s) ← expectN isWordC 3 s
  let s ← expectC '/' s
  let (a2, s) ← expectN isDigitC 4 s
  let s ← expectC ':' s
  let (a3, s) ← expectN isDigitC 2 s
  return (a1 ++ '/' :: mon ++ '/' :: a2 ++ ':' :: a3, s)

/-- Stage 3 of the access-log pattern: `:\d{2}:\d{2}\s+[+-]\d{4}` (rest
of capture 3, including the internal whitespace run). -/
def accClock (s : Str) : Option (Str × Str) := do
  let s ← expectC ':' s
  let (a4, s) ← expectN isDigitC 2 s
  let s ← expectC ':' s
  let (a5, s) ← expectN isDigitC 2 s
  let (w, s) ← plusRun isWsC s
  let (sign, s) ←
    match s with
    | c :: s' => if c = '+' || c = '-' then some (c, s') else none
    | [] => none
  let (a6, s) ← expectN isDigitC 4 s
  return (':' :: a4 ++ ':' :: a5 ++ w ++ sign :: a6, s)

/-- Matcher for the access-log pattern of `LogParser::new` (line 36 of
src/log_parser.rs).  On success returns (ip, user, timestamp, rest). -/
def accessLogMatch (s : Str) : Option (Str × Str × Str × Str) := do
  let (ip, user, s) ← accIpUser s
  let (date, s) ← accDate s
  let (clock, s) ← accClock s
  let rest ← finalWsRest s
  return (ip, user, date ++ clock, rest)

/-- The lightweight boundary heuristic compiled inside
`LogParser::parse_file` (line 118 of src/log_parser.rs): the unanchored
test for the prefix pattern of two digits followed by a dot or a slash. -/
def timestampStart : Str → Bool
  | a :: b :: c :: _ => isDigitC a && isDigitC b && (c = '.' || c = '/')
  | _ => false

/-! ## Single-line classifier (`LogParser::parse_line`, lines 44-110) -/

/-- Map an uppercased level token to a `LogLevel` (the `match` at line 57
of src/log_parser.rs). -/
def levelOfString (u : Str) : LogLevel :=
  if u = strL "INFO" then LogLevel.Info
  else if u = strL "WARN" then LogLevel.Warn
  else if u = strL "ERROR" then LogLevel.Error
  else if u = strL "DEBUG" then LogLevel.Debug
  else if u = strL "TRACE" then LogLevel.Trace
  else LogLevel.Unknown

/-- Model of `rest.splitn(2, ' ')`: the part before the first space, and
(when a space exists) the part after that single space character. -/
def splitnTwoSpace (rest : Str) : Str × Option Str :=
  let cls := rest.takeWhile (fun c => c ≠ ' ')
  match rest.dropWhile (fun c => c ≠ ' ') with
  | [] => (cls, none)
  | _ :: t => (cls, some t)

/-- The `LogParser::parse_line` classifier: try the error-log grammar,
then the access-log grammar, then fall back to an `Unknown` entry. -/
def parseLine (line : Str) (line_number : Nat) : LogEntry :=
  match errorLogMatch line with
  | some (ts, lvlStr, thr, rest) =>
    let (cls, msgOpt) := splitnTwoSpace rest
    { line_number := line_number
      timestamp := some ts
      level := levelOfString (rustToUppercase lvlStr)
      thread := some thr
      class' := some cls
      message := msgOpt.getD rest
      raw_line := line
      is_error_log := true }
  | none =>
    match accessLogMatch line with
    | some (ip, user, ts, rest) =>
      { line_number := line_number
        timestamp := some ts
        level := LogLevel.Info
        thread := none
        class' := none
        message := ip ++ strL " - " ++ user ++ strL " - " ++ rest
        raw_line := line
        is_error_log := false }
    | none =>
      { line_number := line_number
        timestamp := none
        level := LogLevel.Unknown
        thread := none
        class' := none
        message := line
        raw_line := line
        is_error_log := false }

/-! ## Full-file parser (`LogParser::parse_file`, lines 112-164) -/

/-- The `starts_new_entry` test of `parse_file` (line 125): either regex
matches, or the two-digit timestamp heuristic fires. -/
def startsNewEntry (l : Str) : Bool :=
  (errorLogMatch l).isSome || (accessLogMatch l).isSome || timestampStart l

/-- The `is_continuation` test of `parse_file` (line 140): matches no
entry pattern, does not start with a timestamp, and is not blank. -/
def isContinuation (l : Str) : Bool :=
  !(errorLogMatch l).isSome && !(accessLogMatch l).isSome &&
    !timestampStart l && !isBlankLine l

/-- Worker of `parse_file`: `ls` is the remaining physical lines and `i`
the zero-based index of the first of them in the whole file.  `fuel`
only bounds the recursion depth: every step removes at least the head
line, so any fuel at least the number of lines gives the
fuel-independent answer. -/
def parseFileAux : Nat → List Str → Nat → List LogEntry
  | 0, _, _ => []
  | _ + 1, [], _ => []
  | fuel + 1, l :: rest, i =>
    if startsNewEntry l then
      let conts := rest.takeWhile isContinuation
      let rest' := rest.dropWhile isContinuation
      let e := parseLine l (i + 1)
      { e with raw_line := joinNL (l :: conts) } ::
        parseFileAux fuel rest' (i + 1 + conts.length)
    else
      parseFileAux fuel rest (i + 1)

/-- The `LogParser::parse_file` full-content parser. -/
def parseFile (content : Str) : List LogEntry :=
  parseFileAux (rustLines content).length (rustLines content) 0

/-! ## Search engine (src/search.rs) -/

/-- Abstract interface of the `regex` crate as used by `update_search`:
`valid` models whether `Regex::new` succeeds on a pattern, and `findIter`
models `find_iter` returning (start, end) byte spans.  Theorems about the
regex path are stated for an arbitrary engine. -/
structure RegexEngine where
  valid : Str → Bool
  findIter : Str → Str → List (Nat × Nat)

/-- Concrete engine instance used for witnesses and counterexamples: it
models the regex crate's rejection of a pattern containing an unmatched
opening bracket (such as the pattern "[", which `Regex::new` rejects);
its `findIter` is never consulted in the places this instance is used,
because either `use_regex` is false or the pattern is invalid there. -/
def bracketEngine : RegexEngine :=
  { valid := fun p => !(p.contains '[')
    findIter := fun _ _ => [] }

/-- The `SearchState` struct (src/search.rs lines 4-14); the compiled
`regex: Option<Regex>` field is modelled by the pattern string it was
compiled from. -/
structure SearchState where
  query : Str
  case_sensitive : Bool
  use_regex : Bool
  show_only_matches : Bool
  «matches» : List Nat
  current_match : Option Nat
  regex : Option Str
  match_positions : List (Nat × List (Nat × Nat))
deriving DecidableEq, Repr

/-- The `SearchState::new` initial state. -/
def searchStateNew : SearchState :=
  { query := []
    case_sensitive := false
    use_regex := false
    show_only_matches := false
    «matches» := []
    current_match := none
    regex := none
    match_positions := [] }

/-- Leftmost byte offset at which `pat` occurs in `hay` (Rust
`str::find` on the UTF-8 bytes). -/
def bytesFind (pat : List Nat) : List Nat → Option Nat
  | [] => if pat.isPrefixOf [] then some 0 else none
  | b :: t =>
    if pat.isPrefixOf (b :: t) then some 0
    else (bytesFind pat t).map (fun x => x + 1)

/-- The plain-text scan loop of `update_search` (lines 79-84 of
src/search.rs): repeatedly `find` the pattern in the suffix starting at
`offset`, record `(pos, pos + qlen)` (with `qlen` the byte length of the
ORIGINAL query), and restart one byte past the match start.  `fuel`
bounds the iteration count (the Rust loop advances at least one byte per
round; called with fuel > hay length it never runs dry). -/
def findAllAux (fuel : Nat) (hay pat : List Nat) (offset qlen : Nat) :
    List (Nat × Nat) :=
  match fuel with
  | 0 => []
  | fuel + 1 =>
    match bytesFind pat hay with
    | none => []
    | some pos =>
      (offset + pos, offset + pos + qlen) ::
        findAllAux fuel (hay.drop (pos + 1)) pat (offset + pos + 1) qlen

/-- All plain-text match spans recorded for one entry text (lines 66-85
of src/search.rs): case folding is applied to text and query when
`case_sensitive` is false, but the recorded span length is the byte
length of the original query. -/
def plainPositions (text query : Str) (case_sensitive : Bool) :
    List (Nat × Nat) :=
  let searchText := if case_sensitive then text else rustToLowercase text
  let searchQuery := if case_sensitive then query else rustToLowercase query
  let hay := utf8Bytes searchText
  let pat := utf8Bytes searchQuery
  findAllAux (hay.length + 1) hay pat 0 (utf8Bytes query).length

/-- The `SearchState::update_search` rebuild (lines 30-96 of
src/search.rs), parameterised by the regex engine. -/
def updateSearch (eng : RegexEngine) (st : SearchState)
    (entries : List LogEntry) : SearchState :=
  let base := { st with «matches» := ([] : List Nat)
                        current_match := (none : Option Nat)
                        regex := (none : Option Str)
                        match_positions := ([] : List (Nat × List (Nat × Nat))) }
  if st.query = [] then base
  else
    let patternStr := if st.case_sensitive then st.query
                      else strL "(?i)" ++ st.query
    let regexOk := st.use_regex && eng.valid patternStr
    let posOf : LogEntry → List (Nat × Nat) := fun e =>
      if regexOk then eng.findIter patternStr e.raw_line
      else plainPositions e.raw_line st.query st.case_sensitive
    let hits := entries.enum.filterMap (fun p =>
      if posOf p.2 = [] then none else some (p.1, posOf p.2))
    { base with
        regex := if regexOk then some patternStr else none
        «matches» := hits.map (fun h => h.1)
        match_positions := hits
        current_match := if hits = [] then none else some 0 }

/-- The `SearchState::next_match` step (lines 98-105); `none` models the
arithmetic panic of `(current + 1) % 0` on an empty match list. -/
def nextMatch (s : SearchState) : Option SearchState :=
  match s.current_match with
  | some c =>
    if s.matches.length = 0 then none
    else some { s with current_match := some ((c + 1) % s.matches.length) }
  | none =>
    if s.matches.isEmpty then some s
    else some { s with current_match := some 0 }

/-- The `SearchState::prev_match` step (lines 107-118); `none` models the
debug-mode underflow panic of `len - 1` on an empty match list. -/
def prevMatch (s : SearchState) : Option SearchState :=
  match s.current_match with
  | some c =>
    if c = 0 then
      if s.matches.length = 0 then none
      else some { s with current_match := some (s.matches.length - 1) }
    else some { s with current_match := some (c - 1) }
  | none =>
    if s.matches.isEmpty then some s
    else some { s with current_match := some (s.matches.length - 1) }

/-- The implicit invariant of claim C10: a current-match cursor always
indexes into the match list. -/
def searchInv (s : SearchState) : Prop :=
  ∀ i, s.current_match = some i → i < s.matches.length

instance (s : SearchState) : Decidable (searchInv s) := by
  unfold searchInv
  cases s.current_match with
  | none => exact isTrue (by intro i h; cases h)
  | some c =>
    by_cases h : c < s.matches.length
    · exact isTrue (by intro i hi; cases hi; exact h)
    · exact isFalse (by intro hall; exact h (hall c rfl))

/-! ## Application orchestration (src/app.rs) -/

/-- The fields of `LogViewerApp` that the in-scope logic touches
(rendering and scroll state are out of scope); `enabled_levels` models
the `HashSet` by a membership list. -/
structure AppState where
  entries : List LogEntry
  filtered_entries : List Nat
  search : SearchState
  enabled_levels : List LogLevel
  last_file_size : Nat
  tail_log : Bool
  watching : Bool
deriving DecidableEq, Repr

/-- The `LogViewerApp::apply_filters` recomputation (lines 127-153 of
src/app.rs). -/
def applyFilters (eng : RegexEngine) (app : AppState) : AppState :=
  let search' := if app.search.query ≠ [] then
                   updateSearch eng app.search app.entries
                 else app.search
  let filtered := app.entries.enum.filterMap (fun p =>
    if !(app.enabled_levels.contains p.2.level) then none
    else if search'.show_only_matches && search'.query ≠ [] &&
            !(search'.matches.contains p.1) then none
    else some p.1)
  { app with search := search', filtered_entries := filtered }

/-- Worker for `byteLines`; `fuel` only bounds the recursion depth (each
step consumes at least the newline byte, so any fuel at least the byte
count gives the fuel-independent answer). -/
def byteLinesAux : Nat → List Nat → List (List Nat)
  | 0, bs => if bs.isEmpty then [] else [bs.takeWhile (fun x => x ≠ 10)]
  | n + 1, bs =>
    match bs.dropWhile (fun x => x ≠ 10) with
    | [] => if bs.isEmpty then [] else [bs.takeWhile (fun x => x ≠ 10)]
    | _ :: t => (bs.takeWhile (fun x => x ≠ 10) ++ [10]) :: byteLinesAux n t

/-- Split a byte sequence the way repeated `BufRead::read_line` calls do:
each segment extends up to and including a newline byte (0x0A), and a
final newline-less remainder is returned as a segment of its own. -/
def byteLines (bs : List Nat) : List (List Nat) := byteLinesAux bs.length bs

/-- Is `b` a UTF-8 continuation byte. -/
def isContByte (b : Nat) : Bool := 0x80 ≤ b && b ≤ 0xBF

/-- Strict UTF-8 decoder (the validation performed by Rust's
`String::from_utf8` inside `read_line`): rejects overlong encodings,
surrogates and out-of-range code points. -/
def utf8DecodeAux : Nat → List Nat → Option Str
  | _, [] => some []
  | 0, _ :: _ => none
  | fuel + 1, b :: rest =>
    if b < 0x80 then
      (utf8DecodeAux fuel rest).map (fun s => Char.ofNat b :: s)
    else if 0xC2 ≤ b && b ≤ 0xDF then
      match rest with
      | b2 :: r2 =>
        if isContByte b2 then
          (utf8DecodeAux fuel r2).map
            (fun s => Char.ofNat ((b - 0xC0) * 64 + (b2 - 0x80)) :: s)
        else none
      | _ => none
    else if 0xE0 ≤ b && b ≤ 0xEF then
      match rest with
      | b2 :: b3 :: r3 =>
        let okB2 :=
          if b = 0xE0 then 0xA0 ≤ b2 && b2 ≤ 0xBF
          else if b = 0xED then 0x80 ≤ b2 && b2 ≤ 0x9F
          else isContByte b2
        if okB2 && isContByte b3 then
          (utf8DecodeAux fuel r3).map
            (fun s => Char.ofNat ((b - 0xE0) * 4096 + (b2 - 0x80) * 64
                        + (b3 - 0x80)) :: s)
        else none
      | _ => none
    else if 0xF0 ≤ b && b ≤ 0xF4 then
      match rest with
      | b2 :: b3 :: b4 :: r4 =>
        let okB2 :=
          if b = 0xF0 then 0x90 ≤ b2 && b2 ≤ 0xBF
          else if b = 0xF4 then 0x80 ≤ b2 && b2 ≤ 0x8F
          else isContByte b2
        if okB2 && isContByte b3 && isContByte b4 then
          (utf8DecodeAux fuel r4).map
            (fun s => Char.ofNat ((b - 0xF0) * 262144 + (b2 - 0x80) * 4096
                        + (b3 - 0x80) * 64 + (b4 - 0x80)) :: s)
        else none
      | _ => none
    else none

/-- Decode a byte list as UTF-8 text. -/
def utf8Decode (bs : List Nat) : Option Str := utf8DecodeAux bs.length bs

/-- The `read_line` loop of `check_file_updates` (lines 101-108 of
src/app.rs): trim each raw line, skip empty results, classify the rest
with line numbers continuing from `startLine`; a decode failure makes
`read_line` return an error, which `unwrap_or(0)` turns into loop exit
(entries gathered so far are kept). -/
def readTailEntries (segs : List (List Nat)) (startLine : Nat)
    (acc : List LogEntry) : List LogEntry :=
  match segs with
  | [] => acc.reverse
  | seg :: rest =>
    match utf8Decode seg with
    | none => acc.reverse
    | some s =>
      let line := rustTrimEnd s
      if line = [] then readTailEntries rest startLine acc
      else readTailEntries rest startLine
             (parseLine line (startLine + acc.length + 1) :: acc)

/-- The `LogViewerApp::check_file_updates` poll (lines 81-125 of
src/app.rs), as a pure step: `fileBytes` is the current content of the
watched file (its length is the size that `fs::metadata` reports) and
`changed` is the result of `FileWatcher::check_for_changes`.  Scroll
fields are out of scope and omitted. -/
def checkFileUpdates (eng : RegexEngine) (app : AppState)
    (fileBytes : List Nat) (changed : Bool) : AppState :=
  if !app.tail_log || !app.watching then app
  else if !changed then app
  else
    let newSize := fileBytes.length
    if newSize ≤ app.last_file_size then app
    else
      let segs := byteLines (fileBytes.drop app.last_file_size)
      let newLines := readTailEntries segs app.entries.length []
      if newLines = [] then app
      else
        { app with
            entries := app.entries ++ newLines
            filtered_entries := List.range (app.entries ++ newLines).length
            search := updateSearch eng app.search (app.entries ++ newLines)
            last_file_size := newSize }

/-! ## Concrete inputs used by the claim theorems -/

/-- The two-line input of the parsing scenario in claim C7. -/
def c7Input : Str :=
  strL "01.01.2024 10:00:00.000 *ERROR* [main] com.foo.Bar boom\n    at com.foo.Bar.run\n"

/-- Search state with the invalid regex pattern of the C1 counterexample
(the pattern "[" has an unclosed character class, so `Regex::new`
rejects it). -/
def c1State : SearchState :=
  { searchStateNew with query := strL "[", use_regex := true, case_sensitive := true }

/-- Entry whose raw text contains a literal bracket. -/
def c1Entry : LogEntry := parseLine (strL "a[b") 1

/-- App state before the tail polls of the C2 and C3 counterexamples:
empty document, watermark 0, tailing active, only the Error level
enabled. -/
def tailApp : AppState :=
  { entries := []
    filtered_entries := []
    search := searchStateNew
    enabled_levels := [LogLevel.Error]
    last_file_size := 0
    tail_log := true
    watching := true }

/-- File content of the C4 counterexample: an entry-starting line, a
blank line, then an orphan line after the first entry. -/
def c4Content : Str := strL "01.a\n\nfoo"

/-- Structured line of the C5 counterexample: class and message are
separated by a run of two spaces. -/
def c5Line : Str := strL "01.01.2024 10:00:00.000 *ERROR* [main] com.foo.Bar  boom"

/-- Entry of the C6 counterexample: the raw text starts with U+023A,
whose lowercase form is one UTF-8 byte longer. -/
def c6Entry : LogEntry :=
  { line_number := 1
    timestamp := none
    level := LogLevel.Unknown
    thread := none
    class' := none
    message := strL "ȺX"
    raw_line := strL "ȺX"
    is_error_log := false }

/-- Case-insensitive plain-text search state for the C6 counterexample. -/
def c6State : SearchState :=
  { searchStateNew with query := strL "x", case_sensitive := false, use_regex := false }

/-! ## Claim theorems -/

/-- Claim C7 (confirmed): the scenario input parses to exactly one entry
with level Error, thread "main", class "com.foo.Bar", message "boom"
(which in particular starts with "boom"), `is_error_log` set, and
`raw_line` equal to the two physical lines joined by a single newline. -/
theorem c7_scenario :
    parseFile c7Input =
      [{ line_number := 1
         timestamp := some (strL "01.01.2024 10:00:00.000")
         level := LogLevel.Error
         thread := some (strL "main")
         class' := some (strL "com.foo.Bar")
         message := strL "boom"
         raw_line := strL "01.01.2024 10:00:00.000 *ERROR* [main] com.foo.Bar boom\n    at com.foo.Bar.run"
         is_error_log := true }] := by decide

/-- Counterexample to claim C1: with `use_regex` set and the invalid
pattern "[" (rejected by the engine), `update_search` does NOT produce an
empty match set — it falls back to plain-text substring search, finds the
literal bracket in the entry "a[b", records match index 0 with span
(1, 2), and sets a current match. -/
theorem c1_counterexample :
    bracketEngine.valid (if c1State.case_sensitive then c1State.query
                         else strL "(?i)" ++ c1State.query) = false ∧
    (updateSearch bracketEngine c1State [c1Entry]).matches = [0] ∧
    (updateSearch bracketEngine c1State [c1Entry]).match_positions = [(0, [(1, 2)])] ∧
    (updateSearch bracketEngine c1State [c1Entry]).current_match = some 0 := by decide

/-- Counterexample to claim C2: polling after "boom" (4 bytes, no
terminating newline) is appended to an empty file consumes the trailing
content — it IS classified into an entry — and the watermark jumps to
the full new size 4, not to 0 (= old size + length of the
newline-terminated portion, which is empty here). -/
theorem c2_counterexample :
    (checkFileUpdates bracketEngine tailApp (utf8Bytes (strL "boom")) true).entries ≠ [] ∧
    (checkFileUpdates bracketEngine tailApp (utf8Bytes (strL "boom")) true).entries.map
        (fun e => e.raw_line) = [strL "boom"] ∧
    (checkFileUpdates bracketEngine tailApp (utf8Bytes (strL "boom")) true).last_file_size ≠ 0 ∧
    (checkFileUpdates bracketEngine tailApp (utf8Bytes (strL "boom")) true).last_file_size = 4 := by
  decide

/-- Counterexample to claim C3: after the tail monitor appends the entry
"foo" (level Unknown) while only the Error level is enabled, the visible
sequence is [0] even though the entry's level is not in
`enabled_levels` — the filter composition rule does not hold after a
tail append. -/
theorem c3_counterexample :
    (checkFileUpdates bracketEngine tailApp (utf8Bytes (strL "foo\n")) true).filtered_entries = [0] ∧
    (checkFileUpdates bracketEngine tailApp (utf8Bytes (strL "foo\n")) true).entries.map
        (fun e => e.level) = [LogLevel.Unknown] ∧
    (checkFileUpdates bracketEngine tailApp (utf8Bytes (strL "foo\n")) true).enabled_levels.contains
        LogLevel.Unknown = false := by decide

/-- Counterexample to claim C4: in "01.a\n\nfoo" nothing precedes the
first entry (the very first line starts it), yet the interior blank line
and the orphan line "foo" after it are both dropped, so the
concatenation of the parsed raw lines does not reproduce the content. -/
theorem c4_counterexample :
    rustLines c4Content = [strL "01.a", [], strL "foo"] ∧
    startsNewEntry (strL "01.a") = true ∧
    (parseFile c4Content).map (fun e => e.raw_line) = [strL "01.a"] ∧
    joinNL ((parseFile c4Content).map (fun e => e.raw_line)) ≠ joinNL (rustLines c4Content) := by
  decide

/-- Counterexample to claim C5: the line `c5Line` is matched by the
structured grammar with rest "com.foo.Bar  boom" (two separating
spaces), but the message is " boom" — the remainder after the FIRST
SPACE CHARACTER, not after the whitespace run — so it is not "boom" as
the claim requires. -/
theorem c5_counterexample :
    errorLogMatch c5Line =
      some (strL "01.01.2024 10:00:00.000", strL "ERROR", strL "main",
        strL "com.foo.Bar  boom") ∧
    (parseLine c5Line 1).class' = some (strL "com.foo.Bar") ∧
    (parseLine c5Line 1).message = strL " boom" ∧
    (parseLine c5Line 1).message ≠ strL "boom" := by decide

/-- Counterexample to claim C6: case-insensitive plain-text search for
"x" in the entry "ȺX" records the span (3, 4) — an offset into the
LOWERCASED text "ⱥx", whose first character is one byte longer — but the
raw text is only 3 bytes long, so the span is not a byte range within
`raw_line` at all. -/
theorem c6_counterexample :
    (updateSearch bracketEngine c6State [c6Entry]).match_positions = [(0, [(3, 4)])] ∧
    (utf8Bytes c6Entry.raw_line).length = 3 ∧
    ¬ (4 ≤ (utf8Bytes c6Entry.raw_line).length) := by decide

/-- Helper: the head of a nonempty `dropWhile` result fails the predicate. -/
theorem dropWhile_head_false {α : Type} (p : α → Bool) :
    ∀ (l : List α) b t, l.dropWhile p = b :: t → p b = false := by
  intro l
  induction l with
  | nil => intro b t h; cases h
  | cons x xs ih =>
    intro b t h
    by_cases hx : p x
    · rw [List.dropWhile_cons_of_pos hx] at h
      exact ih b t h
    · rw [List.dropWhile_cons_of_neg hx] at h
      cases h
      exact Bool.of_not_eq_true hx

/-- Claim C8 (confirmed): the single-line classifier is total — a plain
function into `LogEntry` with no error channel — its result level is one
of the six `LogLevel` values, and when neither grammar matches it
returns the `Unknown` fallback entry with `message` equal to the raw
input. -/
theorem c8_classifier_total (line : Str) (n : Nat) :
    (parseLine line n).level ∈
      [LogLevel.Info, LogLevel.Warn, LogLevel.Error, LogLevel.Debug,
        LogLevel.Trace, LogLevel.Unknown] ∧
    (errorLogMatch line = none → accessLogMatch line = none →
      parseLine line n =
        { line_number := n
          timestamp := none
          level := LogLevel.Unknown
          thread := none
          class' := none
          message := line
          raw_line := line
          is_error_log := false }) := by
  constructor
  · cases h : (parseLine line n).level <;> simp
  · intro h1 h2
    simp [parseLine, h1, h2]

/-- Witness for C8 at the unstructured input "~~~": neither grammar
matches, and the classifier returns the fallback entry. -/
theorem c8_classifier_total_witness :
    parseLine (strL "~~~") 1 =
      { line_number := 1
        timestamp := none
        level := LogLevel.Unknown
        thread := none
        class' := none
        message := strL "~~~"
        raw_line := strL "~~~"
        is_error_log := false } :=
  (c8_classifier_total (strL "~~~") 1).2 (by decide) (by decide)

/-- Claim C9 (confirmed): on states satisfying the cursor invariant,
`next_match` and `prev_match` wrap around — next from the last match
index goes to 0, prev from 0 goes to N-1, all other positions step by
one — and both are no-ops on an empty match list. -/
theorem c9_navigation_wraparound (s : SearchState) (c : Nat)
    (hinv : searchInv s) :
    (s.matches = [] → nextMatch s = some s ∧ prevMatch s = some s) ∧
    (s.current_match = some c →
      (c + 1 = s.matches.length →
        nextMatch s = some { s with current_match := some 0 }) ∧
      (c + 1 < s.matches.length →
        nextMatch s = some { s with current_match := some (c + 1) }) ∧
      (c = 0 →
        prevMatch s = some { s with current_match := some (s.matches.length - 1) }) ∧
      (c ≠ 0 →
        prevMatch s = some { s with current_match := some (c - 1) })) := by
  constructor
  · intro hm
    have hc : s.current_match = none := by
      cases h : s.current_match with
      | none => rfl
      | some i =>
        have := hinv i h
        rw [hm] at this
        simp at this
    simp [nextMatch, prevMatch, hc, hm]
  · intro hc
    have hlt := hinv c hc
    have hlen : s.matches.length ≠ 0 := by omega
    refine ⟨?_, ?_, ?_, ?_⟩
    · intro h1
      simp [nextMatch, hc, hlen]
      rw [h1, Nat.mod_self]
    · intro h1
      simp [nextMatch, hc, hlen]
      rw [Nat.mod_eq_of_lt h1]
    · intro h0
      subst h0
      simp [prevMatch, hc, hlen]
    · intro h0
      simp [prevMatch, hc, h0]

/-- Witness for C9 on a two-element match list with the cursor at the
last position: next wraps to 0 and prev steps back to 0. -/
theorem c9_navigation_wraparound_witness :
    nextMatch { searchStateNew with «matches» := [4, 9], current_match := some 1 } =
      some { searchStateNew with «matches» := [4, 9], current_match := some 0 } :=
  (((c9_navigation_wraparound
      { searchStateNew with «matches» := [4, 9], current_match := some 1 } 1
      (by decide)).2 rfl).1 (by decide))

/-- Helper for C10: any state of the shape built by the final record
update of `update_search` satisfies the cursor invariant. -/
theorem searchInv_rebuild (st : SearchState) (L : List (Nat × List (Nat × Nat)))
    (rg : Option Str) :
    searchInv
      { query := st.query
        case_sensitive := st.case_sensitive
        use_regex := st.use_regex
        show_only_matches := st.show_only_matches
        «matches» := L.map (fun h => h.1)
        current_match := if L = [] then none else some 0
        regex := rg
        match_positions := L } := by
  intro i hi
  by_cases h : L = []
  · simp [h] at hi
  · simp [h] at hi ⊢
    subst hi
    exact List.length_pos.mpr h

/-- Claim C10 (confirmed): the invariant "a current match always indexes
into the match list" holds initially, is established unconditionally by
`update_search`, and is preserved by `next_match` and `prev_match`,
which moreover never hit the division-by-zero / underflow panics on
invariant states (they always return a successor state). -/
theorem c10_search_invariant :
    searchInv searchStateNew ∧
    (∀ eng st entries, searchInv (updateSearch eng st entries)) ∧
    (∀ s, searchInv s → ∃ t, nextMatch s = some t ∧ searchInv t) ∧
    (∀ s, searchInv s → ∃ t, prevMatch s = some t ∧ searchInv t) := by
  refine ⟨by decide, ?_, ?_, ?_⟩
  · intro eng st entries
    by_cases hq : st.query = []
    · intro i hi
      simp [updateSearch, hq] at hi
    · unfold updateSearch
      rw [if_neg hq]
      exact searchInv_rebuild st _ _
  · intro s hs
    cases hc : s.current_match with
    | some c =>
      have hlt := hs c hc
      have hlen : s.matches.length ≠ 0 := by omega
      refine ⟨{ s with current_match := some ((c + 1) % s.matches.length) },
        by simp [nextMatch, hc, hlen], ?_⟩
      intro i hi
      simp at hi
      subst hi
      simp
      exact Nat.mod_lt _ (by omega)
    | none =>
      by_cases hm : s.matches.isEmpty
      · exact ⟨s, by simp [nextMatch, hc, hm], hs⟩
      · refine ⟨{ s with current_match := some 0 },
          by simp [nextMatch, hc, hm], ?_⟩
        intro i hi
        simp at hi
        subst hi
        simp
        simpa [List.isEmpty_iff_length_eq_zero, Nat.pos_iff_ne_zero] using hm
  · intro s hs
    cases hc : s.current_match with
    | some c =>
      have hlt := hs c hc
      have hlen : s.matches.length ≠ 0 := by omega
      by_cases h0 : c = 0
      · subst h0
        refine ⟨{ s with current_match := some (s.matches.length - 1) },
          by simp [prevMatch, hc, hlen], ?_⟩
        intro i hi
        simp at hi
        subst hi
        simp
        omega
      · refine ⟨{ s with current_match := some (c - 1) },
          by simp [prevMatch, hc, h0], ?_⟩
        intro i hi
        simp at hi
        subst hi
        simp
        omega
    | none =>
      by_cases hm : s.matches.isEmpty
      · exact ⟨s, by simp [prevMatch, hc, hm], hs⟩
      · refine ⟨{ s with current_match := some (s.matches.length - 1) },
          by simp [prevMatch, hc, hm], ?_⟩
        intro i hi
        simp at hi
        subst hi
        simp
        have hne : s.matches.length ≠ 0 := by
          simpa [List.isEmpty_iff_length_eq_zero] using hm
        omega

/-- Witness for C10: on a concrete invariant state with one match and
the cursor set, `next_match` yields an invariant successor state. -/
theorem c10_search_invariant_witness :
    ∃ t, nextMatch { searchStateNew with «matches» := [2], current_match := some 0 } = some t ∧
      searchInv t :=
  c10_search_invariant.2.2.1
    { searchStateNew with «matches» := [2], current_match := some 0 } (by decide)

/-- Claim C1 (corrected): when `use_regex` is set and the case-adjusted
pattern fails to compile, `update_search` does not produce an empty
match set — it runs the plain-text substring branch on the raw query, so
the resulting state coincides (except for the untouched `use_regex`
flag) with a plain-text search for the same query. -/
theorem c1_invalid_regex_falls_back (eng : RegexEngine) (st : SearchState)
    (entries : List LogEntry)
    (hreg : st.use_regex = true)
    (hval : eng.valid (if st.case_sensitive then st.query
                       else strL "(?i)" ++ st.query) = false) :
    updateSearch eng st entries =
      { updateSearch eng { st with use_regex := false } entries with
          use_regex := true } := by
  have hval2 : (st.use_regex && eng.valid (if st.case_sensitive then st.query
      else strL "(?i)" ++ st.query)) = false := by
    rw [hreg, hval, Bool.and_false]
  by_cases hq : st.query = []
  · simp [updateSearch, hq, hreg]
  · simp only [updateSearch, if_neg hq]
    simp only [hval2, Bool.false_and, Bool.false_eq_true, if_false]
    rw [hreg]

/-- Witness for C1 at the invalid pattern "[" over the entry "a[b". -/
theorem c1_invalid_regex_falls_back_witness :
    updateSearch bracketEngine c1State [c1Entry] =
      { updateSearch bracketEngine { c1State with use_regex := false } [c1Entry] with
          use_regex := true } :=
  c1_invalid_regex_falls_back bracketEngine c1State [c1Entry] rfl (by decide)

/-- Claim C2 (corrected): a growth poll consumes the WHOLE appended byte
range, trailing newline-less content included; if nothing but blank
lines came in, the state (watermark included) is unchanged, and
otherwise the new entries are appended and the watermark jumps to the
full new file size. -/
theorem c2_tail_watermark (eng : RegexEngine) (app : AppState)
    (fileBytes : List Nat)
    (htl : app.tail_log = true) (hw : app.watching = true)
    (hsz : app.last_file_size < fileBytes.length) :
    (readTailEntries (byteLines (fileBytes.drop app.last_file_size))
        app.entries.length [] = [] →
      checkFileUpdates eng app fileBytes true = app) ∧
    (readTailEntries (byteLines (fileBytes.drop app.last_file_size))
        app.entries.length [] ≠ [] →
      (checkFileUpdates eng app fileBytes true).entries =
        app.entries ++
          readTailEntries (byteLines (fileBytes.drop app.last_file_size))
            app.entries.length [] ∧
      (checkFileUpdates eng app fileBytes true).last_file_size =
        fileBytes.length) := by
  have hsz' : ¬ fileBytes.length ≤ app.last_file_size := by omega
  constructor
  · intro h
    simp [checkFileUpdates, htl, hw, hsz', h]
  · intro h
    simp [checkFileUpdates, htl, hw, hsz', h]

/-- Witness for C2: the 4-byte newline-less append "boom" is consumed
whole and the watermark becomes the new size. -/
theorem c2_tail_watermark_witness :
    (checkFileUpdates bracketEngine tailApp (utf8Bytes (strL "boom")) true).entries =
      tailApp.entries ++
        readTailEntries (byteLines ((utf8Bytes (strL "boom")).drop tailApp.last_file_size))
          tailApp.entries.length [] ∧
    (checkFileUpdates bracketEngine tailApp (utf8Bytes (strL "boom")) true).last_file_size =
      (utf8Bytes (strL "boom")).length :=
  (c2_tail_watermark bracketEngine tailApp (utf8Bytes (strL "boom")) rfl rfl
    (by decide)).2 (by decide)

/-- Claim C3 (corrected): whenever the tail poll appends at least one
entry, the visible index sequence is set to ALL entry indices in
ascending order (`0, 1, ..., n-1`) — the level / match-set composition
rule is not applied until the next `apply_filters` call. -/
theorem c3_tail_sets_full_range (eng : RegexEngine) (app : AppState)
    (fileBytes : List Nat)
    (htl : app.tail_log = true) (hw : app.watching = true)
    (hsz : app.last_file_size < fileBytes.length)
    (hne : readTailEntries (byteLines (fileBytes.drop app.last_file_size))
        app.entries.length [] ≠ []) :
    (checkFileUpdates eng app fileBytes true).filtered_entries =
      List.range (checkFileUpdates eng app fileBytes true).entries.length := by
  have hsz' : ¬ fileBytes.length ≤ app.last_file_size := by omega
  simp [checkFileUpdates, htl, hw, hsz', hne]

/-- Witness for C3 on the concrete append "foo" to an empty document. -/
theorem c3_tail_sets_full_range_witness :
    (checkFileUpdates bracketEngine tailApp (utf8Bytes (strL "foo\n")) true).filtered_entries =
      List.range
        (checkFileUpdates bracketEngine tailApp (utf8Bytes (strL "foo\n")) true).entries.length :=
  c3_tail_sets_full_range bracketEngine tailApp (utf8Bytes (strL "foo\n")) rfl rfl
    (by decide) (by decide)

/-- Claim C5 (corrected): for a line matched by the structured grammar,
`rest` is split at the FIRST SPACE CHARACTER only: the class is the
space-free prefix and the message is everything after that single space
(so further spaces of a multi-space run stay in the message, and a tab
does not split at all); when `rest` has no space, both class and message
are the whole `rest`. -/
theorem c5_split_first_space (line : Str) (n : Nat) (ts lvl thr rest : Str)
    (h : errorLogMatch line = some (ts, lvl, thr, rest)) :
    ∃ cls msg,
      (parseLine line n).class' = some cls ∧
      (parseLine line n).message = msg ∧
      (∀ c ∈ cls, c ≠ ' ') ∧
      (rest = cls ++ ' ' :: msg ∨
        (cls = rest ∧ msg = rest ∧ ∀ c ∈ rest, c ≠ ' ')) := by
  have hsplit := List.takeWhile_append_dropWhile
    (fun c => !decide (c = ' ')) rest
  cases hd : rest.dropWhile (fun c => !decide (c = ' ')) with
  | nil =>
    refine ⟨rest.takeWhile (fun c => !decide (c = ' ')), rest, ?_, ?_, ?_, ?_⟩
    · simp [parseLine, h, splitnTwoSpace, hd]
    · simp [parseLine, h, splitnTwoSpace, hd]
    · intro c hc
      have := List.mem_takeWhile_imp hc
      simpa using this
    · right
      have hall := List.dropWhile_eq_nil_iff.mp hd
      refine ⟨?_, rfl, ?_⟩
      · rw [hd] at hsplit
        simpa using hsplit
      · intro c hc
        simpa using hall c hc
  | cons b t =>
    have hb : (fun c => !decide (c = ' ')) b = false :=
      dropWhile_head_false _ rest b t hd
    have hb' : b = ' ' := by simpa using hb
    refine ⟨rest.takeWhile (fun c => !decide (c = ' ')), t, ?_, ?_, ?_, ?_⟩
    · simp [parseLine, h, splitnTwoSpace, hd]
    · simp [parseLine, h, splitnTwoSpace, hd]
    · intro c hc
      have := List.mem_takeWhile_imp hc
      simpa using this
    · left
      conv_lhs => rw [← hsplit]
      rw [hd, hb']

/-- Witness for C5 on the single-space scenario line: class and message
split at the one space of "com.foo.Bar boom". -/
theorem c5_split_first_space_witness :
    ∃ cls msg,
      (parseLine (strL "01.01.2024 10:00:00.000 *ERROR* [main] com.foo.Bar boom") 1).class' =
        some cls ∧
      (parseLine (strL "01.01.2024 10:00:00.000 *ERROR* [main] com.foo.Bar boom") 1).message =
        msg ∧
      (∀ c ∈ cls, c ≠ ' ') ∧
      (strL "com.foo.Bar boom" = cls ++ ' ' :: msg ∨
        (cls = strL "com.foo.Bar boom" ∧ msg = strL "com.foo.Bar boom" ∧
          ∀ c ∈ strL "com.foo.Bar boom", c ≠ ' ')) :=
  c5_split_first_space
    (strL "01.01.2024 10:00:00.000 *ERROR* [main] com.foo.Bar boom") 1
    (strL "01.01.2024 10:00:00.000") (strL "ERROR") (strL "main")
    (strL "com.foo.Bar boom") (by decide)

/-- Helper: `joinNL` of a cons with nonempty tail. -/
theorem joinNL_cons (x : Str) (l : List Str) (h : l ≠ []) :
    joinNL (x :: l) = x ++ '\n' :: joinNL l := by
  cases l with
  | nil => exact absurd rfl h
  | cons y t => rfl

/-- Helper: `joinNL` distributes over append of nonempty line blocks. -/
theorem joinNL_append (a b : List Str) (ha : a ≠ []) (hb : b ≠ []) :
    joinNL (a ++ b) = joinNL a ++ '\n' :: joinNL b := by
  induction a with
  | nil => exact absurd rfl ha
  | cons x a' ih =>
    cases ha' : a' with
    | nil =>
      subst ha'
      simp only [List.cons_append, List.nil_append]
      rw [joinNL_cons x b hb]
      rfl
    | cons y t =>
      rw [← ha']
      have ha'' : a' ≠ [] := by rw [ha']; exact List.cons_ne_nil y t
      have hab : a' ++ b ≠ [] := by
        rw [ha']
        exact List.cons_ne_nil y (t ++ b)
      rw [List.cons_append, joinNL_cons x (a' ++ b) hab, ih ha'',
        joinNL_cons x a' ha'']
      simp [List.append_assoc]

/-- Helper: a non-blank line that is not a continuation starts a new
entry (Boolean tautology over the four tests). -/
theorem starts_of_not_cont (l : Str) (hc : isContinuation l = false)
    (hb : isBlankLine l = false) : startsNewEntry l = true := by
  have key : ∀ e ac ts bl : Bool,
      (!e && !ac && !ts && !bl) = false → bl = false → (e || ac || ts) = true := by
    decide
  exact key _ _ _ _ hc hb

/-- Round-trip worker for claim C4: over blank-free line blocks whose
first line starts an entry, `parse_file` reproduces the lines exactly. -/
theorem parseFileAux_join :
    ∀ (fuel : Nat) (ls : List Str) (i : Nat), ls.length ≤ fuel →
      (∀ l ∈ ls, isBlankLine l = false) →
      (∀ l t, ls = l :: t → startsNewEntry l = true) →
      joinNL ((parseFileAux fuel ls i).map (fun e => e.raw_line)) = joinNL ls := by
  intro fuel
  induction fuel with
  | zero =>
    intro ls i hlen _ _
    have : ls = [] := List.length_eq_zero.mp (Nat.le_zero.mp hlen)
    subst this
    rfl
  | succ fuel ih =>
    intro ls i hlen hblank hfirst
    cases ls with
    | nil => rfl
    | cons l rest =>
      have hstart : startsNewEntry l = true := hfirst l rest rfl
      simp only [parseFileAux, hstart, if_true, List.map_cons]
      cases hrest' : rest.dropWhile isContinuation with
      | nil =>
        have hconts : rest.takeWhile isContinuation = rest := by
          have := List.takeWhile_append_dropWhile isContinuation rest
          rw [hrest'] at this
          simpa using this
        rw [hconts]
        have : parseFileAux fuel [] (i + 1 + rest.length) = [] := by
          cases fuel <;> rfl
        rw [this]
        rfl
      | cons r t' =>
        have hsub := List.takeWhile_append_dropWhile isContinuation rest
        rw [hrest'] at hsub
        have hrmem : r ∈ rest := by
          rw [← hsub]
          exact List.mem_append_right _ (List.mem_cons_self r t')
        have hrblank : isBlankLine r = false := hblank r (List.mem_cons_of_mem l hrmem)
        have hrcont : isContinuation r = false :=
          dropWhile_head_false isContinuation rest r t' hrest'
        have hrstart : startsNewEntry r = true := starts_of_not_cont r hrcont hrblank
        have hlen' : (r :: t').length ≤ fuel := by
          have h1 : (rest.dropWhile isContinuation).length ≤ rest.length :=
            (List.dropWhile_sublist _).length_le
          rw [hrest'] at h1
          simp only [List.length_cons] at h1 hlen ⊢
          omega
        have hblank' : ∀ x ∈ r :: t', isBlankLine x = false := by
          intro x hx
          have : x ∈ rest := by
            rw [← hsub]
            exact List.mem_append_right _ hx
          exact hblank x (List.mem_cons_of_mem l this)
        have hfirst' : ∀ x t, r :: t' = x :: t → startsNewEntry x = true := by
          intro x t he
          cases he
          exact hrstart
        have hij := ih (r :: t') (i + 1 + (rest.takeWhile isContinuation).length)
          hlen' hblank' hfirst'
        have hne : parseFileAux fuel (r :: t') (i + 1 + (rest.takeWhile isContinuation).length) ≠ [] := by
          cases fuel with
          | zero => simp at hlen'
          | succ f => simp [parseFileAux, hrstart]
        have hmapne : (parseFileAux fuel (r :: t')
            (i + 1 + (rest.takeWhile isContinuation).length)).map (fun e => e.raw_line) ≠ [] := by
          simpa using hne
        rw [joinNL_cons _ _ hmapne, hij]
        have hblock : l :: rest = (l :: rest.takeWhile isContinuation) ++ (r :: t') := by
          rw [List.cons_append, hsub]
        rw [hblock, joinNL_append (l :: rest.takeWhile isContinuation) (r :: t')
          (List.cons_ne_nil _ _) (List.cons_ne_nil _ _)]

/-- Claim C4 (corrected): the round-trip holds only on contents with no
blank lines at all and whose first line starts an entry; in general the
parser also drops blank lines and orphan lines occurring AFTER entries
have begun (see the counterexample), not only leading ones. -/
theorem c4_roundtrip_amended (content : Str)
    (hblank : ∀ l ∈ rustLines content, isBlankLine l = false)
    (hfirst : ∀ l t, rustLines content = l :: t → startsNewEntry l = true) :
    joinNL ((parseFile content).map (fun e => e.raw_line)) =
      joinNL (rustLines content) :=
  parseFileAux_join (rustLines content).length (rustLines content) 0
    le_rfl hblank hfirst

/-- Witness for C4 on a two-entry content with a continuation line and
no blanks: the parse reproduces the lines verbatim. -/
theorem c4_roundtrip_amended_witness :
    joinNL ((parseFile (strL "01.a\n  cont\n02.b")).map (fun e => e.raw_line)) =
      joinNL (rustLines (strL "01.a\n  cont\n02.b")) :=
  c4_roundtrip_amended (strL "01.a\n  cont\n02.b") (by decide)
    (by intro l t h; cases h; decide)

/-- Helper: a code point below the surrogate range survives the
`Char.ofNat` / `Char.toNat` round trip. -/
theorem charOfNat_toNat (n : Nat) (h : n < 0xD800) : (Char.ofNat n).toNat = n := by
  have hv : n.isValidChar := Or.inl h
  simp [Char.ofNat, hv]
  rfl

/-- Helper: a Boolean prefix test yields the corresponding `take`
equation and length bound. -/
theorem isPrefixOf_take :
    ∀ (pat l : List Nat), pat.isPrefixOf l = true →
      l.take pat.length = pat ∧ pat.length ≤ l.length := by
  intro pat
  induction pat with
  | nil =>
    intro l _
    exact ⟨by simp, Nat.zero_le _⟩
  | cons a pa ih =>
    intro l h
    cases l with
    | nil => simp [List.isPrefixOf] at h
    | cons b lb =>
      simp only [List.isPrefixOf, Bool.and_eq_true, beq_iff_eq] at h
      obtain ⟨hab, hp⟩ := h
      obtain ⟨h1, h2⟩ := ih lb hp
      subst hab
      refine ⟨?_, ?_⟩
      · simp [List.take, h1]
      · simpa using Nat.succ_le_succ h2

/-- Specification of `bytesFind`: a hit means the pattern occurs at that
byte offset and fits inside the haystack. -/
theorem bytesFind_spec :
    ∀ (hay pat : List Nat) (p : Nat), bytesFind pat hay = some p →
      (hay.drop p).take pat.length = pat ∧ p + pat.length ≤ hay.length := by
  intro hay
  induction hay with
  | nil =>
    intro pat p h
    unfold bytesFind at h
    by_cases hp : pat.isPrefixOf ([] : List Nat)
    · rw [if_pos hp] at h
      cases h
      simpa using isPrefixOf_take pat [] hp
    · rw [if_neg hp] at h
      cases h
  | cons b t ih =>
    intro pat p h
    unfold bytesFind at h
    by_cases hp : pat.isPrefixOf (b :: t)
    · rw [if_pos hp] at h
      cases h
      simpa using isPrefixOf_take pat (b :: t) hp
    · rw [if_neg hp] at h
      cases hf : bytesFind pat t with
      | none => rw [hf] at h; cases h
      | some q =>
        rw [hf] at h
        simp only [Option.map_some'] at h
        cases h
        obtain ⟨h1, h2⟩ := ih pat q hf
        refine ⟨by simpa [List.drop] using h1, ?_⟩
        simp only [List.length_cons]
        omega

/-- Specification of the plain-text scan loop: every recorded span
`(a, b)` has `b = a + qlen` and marks an occurrence of the (nonempty)
pattern at byte offset `a - off` of the scanned haystack. -/
theorem findAllAux_spec :
    ∀ (fuel : Nat) (hay pat : List Nat) (off qlen a b : Nat), pat ≠ [] →
      (a, b) ∈ findAllAux fuel hay pat off qlen →
      b = a + qlen ∧ ∃ p, a = off + p ∧
        (hay.drop p).take pat.length = pat ∧ p + pat.length ≤ hay.length := by
  intro fuel
  induction fuel with
  | zero =>
    intro hay pat off qlen a b _ h
    simp [findAllAux] at h
  | succ fuel ih =>
    intro hay pat off qlen a b hpat h
    unfold findAllAux at h
    cases hf : bytesFind pat hay with
    | none => rw [hf] at h; simp at h
    | some pos =>
      rw [hf] at h
      simp only [List.mem_cons, Prod.mk.injEq] at h
      cases h with
      | inl he =>
        obtain ⟨ha, hb⟩ := he
        obtain ⟨h1, h2⟩ := bytesFind_spec hay pat pos hf
        exact ⟨by omega, pos, by omega, h1, h2⟩
      | inr hm =>
        obtain ⟨hb, p', hp1, hp2, hp3⟩ :=
          ih (hay.drop (pos + 1)) pat (off + pos + 1) qlen a b hpat hm
        refine ⟨hb, pos + 1 + p', by omega, ?_, ?_⟩
        · rw [List.drop_drop] at hp2
          exact hp2
        · have hlen := List.length_drop (pos + 1) hay
          rw [hlen] at hp3
          have hpos : pos + pat.length ≤ hay.length := (bytesFind_spec hay pat pos hf).2
          have : 1 ≤ pat.length := by
            cases pat with
            | nil => exact absurd rfl hpat
            | cons x xs => simp
          omega

/-- Helper: character encodings are never empty. -/
theorem utf8EncodeChar_ne_nil (c : Char) : utf8EncodeChar c ≠ [] := by
  simp only [utf8EncodeChar]
  split
  · simp
  · split
    · simp
    · split <;> simp

/-- Helper: the byte sequence of a nonempty string is nonempty. -/
theorem utf8Bytes_ne_nil (s : Str) (h : s ≠ []) : utf8Bytes s ≠ [] := by
  cases s with
  | nil => exact absurd rfl h
  | cons c cs =>
    simp only [utf8Bytes, List.map_cons, List.flatten_cons, ne_eq,
      List.append_eq_nil]
    intro hc
    exact utf8EncodeChar_ne_nil c hc.1

/-- Helper: lowercasing never empties a string. -/
theorem rustToLowercase_ne_nil (s : Str) (h : s ≠ []) :
    rustToLowercase s ≠ [] := by
  cases s with
  | nil => exact absurd rfl h
  | cons c cs => simp [rustToLowercase, toLowercaseChar]

/-- Helper (ASCII bridge): on ASCII strings, Rust lowercasing acts on
the UTF-8 bytes as the bytewise ASCII fold `lowerByte`. -/
theorem utf8Bytes_lower_ascii :
    ∀ (s : Str), (∀ c ∈ s, c.toNat < 128) →
      utf8Bytes (rustToLowercase s) = (utf8Bytes s).map lowerByte := by
  intro s
  induction s with
  | nil => intro _; rfl
  | cons c cs ih =>
    intro h
    have hc : c.toNat < 128 := h c (List.mem_cons_self c cs)
    have hcs : ∀ x ∈ cs, x.toNat < 128 := fun x hx => h x (List.mem_cons_of_mem c hx)
    have hne : ¬ c.toNat = 0x23A := by omega
    have hlow : lowerCodepoint c.toNat < 128 := by
      unfold lowerCodepoint
      by_cases h1 : (65 ≤ c.toNat && c.toNat ≤ 90) = true
      · rw [if_pos h1]
        simp only [Bool.and_eq_true, decide_eq_true_eq] at h1
        omega
      · rw [if_neg h1, if_neg (by simpa using hne)]
        exact hc
    have htn : (Char.ofNat (lowerCodepoint c.toNat)).toNat = lowerCodepoint c.toNat :=
      charOfNat_toNat _ (by omega)
    have e5 : lowerByte c.toNat = lowerCodepoint c.toNat := by
      unfold lowerByte lowerCodepoint
      by_cases h1 : (65 ≤ c.toNat && c.toNat ≤ 90) = true
      · rw [if_pos h1, if_pos h1]
      · rw [if_neg h1, if_neg h1, if_neg (by simpa using hne)]
    have e1 : rustToLowercase (c :: cs) =
        Char.ofNat (lowerCodepoint c.toNat) :: rustToLowercase cs := by
      simp [rustToLowercase, toLowercaseChar]
    have e3 : utf8EncodeChar (Char.ofNat (lowerCodepoint c.toNat)) =
        [lowerCodepoint c.toNat] := by
      simp only [utf8EncodeChar, htn]
      rw [if_pos (by omega)]
    have e4 : utf8EncodeChar c = [c.toNat] := by
      simp only [utf8EncodeChar]
      rw [if_pos (by omega)]
    rw [e1]
    simp only [utf8Bytes, List.map_cons, List.flatten_cons] at ih ⊢
    rw [e3, e4, ih hcs]
    simp [e5]

/-- Claim C6 (corrected): restricted to ASCII query and entry texts, the
recorded plain-text spans are sound — each `(a, b)` has `b = a + |query|`
in bytes, lies inside `raw_line`, and the marked byte slice equals the
query up to ASCII case folding (exactly, when `case_sensitive` is set).
On non-ASCII text the recorded offsets refer to the lowercased copy and
can fall outside `raw_line` (see the counterexample). -/
theorem c6_spans_sound_ascii (eng : RegexEngine) (st : SearchState)
    (entries : List LogEntry) (idx : Nat) (ps : List (Nat × Nat)) (a b : Nat)
    (hreg : st.use_regex = false)
    (hqa : ∀ c ∈ st.query, c.toNat < 128)
    (hea : ∀ en ∈ entries, ∀ c ∈ en.raw_line, c.toNat < 128)
    (hmem : (idx, ps) ∈ (updateSearch eng st entries).match_positions)
    (hsp : (a, b) ∈ ps) :
    ∃ en, entries.get? idx = some en ∧
      b = a + (utf8Bytes st.query).length ∧
      b ≤ (utf8Bytes en.raw_line).length ∧
      (((utf8Bytes en.raw_line).drop a).take (utf8Bytes st.query).length).map lowerByte
        = (utf8Bytes st.query).map lowerByte ∧
      (st.case_sensitive = true →
        ((utf8Bytes en.raw_line).drop a).take (utf8Bytes st.query).length
          = utf8Bytes st.query) := by
  by_cases hq : st.query = []
  · simp [updateSearch, hq] at hmem
  · have hre : (st.use_regex && eng.valid (if st.case_sensitive then st.query
        else strL "(?i)" ++ st.query)) = false := by
      rw [hreg, Bool.false_and]
    simp only [updateSearch, if_neg hq, hre, Bool.false_eq_true, if_false] at hmem
    rw [List.mem_filterMap] at hmem
    obtain ⟨pr, hpr, hf⟩ := hmem
    by_cases hz : plainPositions pr.2.raw_line st.query st.case_sensitive = []
    · rw [if_pos hz] at hf
      cases hf
    · rw [if_neg hz] at hf
      simp only [Option.some.injEq, Prod.mk.injEq] at hf
      obtain ⟨hidx, hps⟩ := hf
      have hget : entries.get? idx = some pr.2 := by
        rw [← hidx]
        exact List.mk_mem_enum_iff_get?.mp (by
          have : pr = (pr.1, pr.2) := rfl
          rw [← this]
          exact hpr)
      have henmem : pr.2 ∈ entries := List.get?_mem hget
      have hena : ∀ c ∈ pr.2.raw_line, c.toNat < 128 := hea pr.2 henmem
      rw [← hps] at hsp
      unfold plainPositions at hsp
      refine ⟨pr.2, hget, ?_⟩
      cases hcs : st.case_sensitive with
      | true =>
        rw [hcs] at hsp
        simp only [if_true] at hsp
        have hpat : utf8Bytes st.query ≠ [] := utf8Bytes_ne_nil _ hq
        obtain ⟨hb, p, hp1, hp2, hp3⟩ :=
          findAllAux_spec _ _ _ _ _ _ _ hpat hsp
        have ha : a = p := by omega
        subst ha
        refine ⟨hb, by omega, ?_, fun _ => hp2⟩
        exact congrArg (List.map lowerByte) hp2
      | false =>
        rw [hcs] at hsp
        simp only [Bool.false_eq_true, if_false] at hsp
        have hql : rustToLowercase st.query ≠ [] := rustToLowercase_ne_nil _ hq
        have hpat : utf8Bytes (rustToLowercase st.query) ≠ [] :=
          utf8Bytes_ne_nil _ hql
        obtain ⟨hb, p, hp1, hp2, hp3⟩ :=
          findAllAux_spec _ _ _ _ _ _ _ hpat hsp
        have ha : a = p := by omega
        subst ha
        rw [utf8Bytes_lower_ascii st.query hqa,
          utf8Bytes_lower_ascii pr.2.raw_line hena] at hp2 hp3
        have hlenq : ((utf8Bytes st.query).map lowerByte).length =
            (utf8Bytes st.query).length := List.length_map _ _
        have hlenH : ((utf8Bytes pr.2.raw_line).map lowerByte).length =
            (utf8Bytes pr.2.raw_line).length := List.length_map _ _
        refine ⟨hb, by omega, ?_, ?_⟩
        · rw [← List.map_drop, ← List.map_take, hlenq] at hp2
          exact hp2
        · intro hcontra
          simp at hcontra

/-- Witness for C6 on the ASCII entry "Boom boom" with query "boom":
the second recorded span (5, 9) marks a case-folded occurrence inside
`raw_line`. -/
theorem c6_spans_sound_ascii_witness :
    ∃ en, [parseLine (strL "Boom boom") 1].get? 0 = some en ∧
      9 = 5 + (utf8Bytes (strL "boom")).length ∧
      9 ≤ (utf8Bytes en.raw_line).length ∧
      (((utf8Bytes en.raw_line).drop 5).take (utf8Bytes (strL "boom")).length).map lowerByte
        = (utf8Bytes (strL "boom")).map lowerByte ∧
      (false = true →
        ((utf8Bytes en.raw_line).drop 5).take (utf8Bytes (strL "boom")).length
          = utf8Bytes (strL "boom")) :=
  c6_spans_sound_ascii bracketEngine
    { searchStateNew with query := strL "boom", case_sensitive := false, use_regex := false }
    [parseLine (strL "Boom boom") 1] 0 [(0, 4), (5, 9)] 5 9
    rfl (by decide) (by decide) (by decide) (by decide)
